import Mathlib

/-!
Shallow embedding of the streaming orchestration agent (`src/agent.py`) and
the workspace tools (`src/tools.py`) of the Aura-Code repository, together
with proofs of the behavioural properties stated in its specification.

The embedding models:
* the `Message` envelope and `Message.new` (which mirrors the Python
  expression `id or str(uuid.uuid4())`, including its treatment of the
  empty string as a missing id);
* the `Agent.send_feedback` orchestration cycle as a pure function from
  the load result and the consumed generation stream to the trace of
  emitted envelopes and external calls;
* the `load_code` tool's directory walk and the `load_code` branch of the
  WebSocket `handler`.

Fresh uuid generation is modelled by an abstract supply `gen : Nat → String`
threaded through a draw counter, and clock reads by an abstract
`times : Nat → Int`; neither is interpreted further.
-/

namespace AuraCode

/-- JSON-like payloads carried by envelopes (`data: dict` in the source;
the `load_code` handler branch in fact attaches a two-element JSON array). -/
inductive JsonVal where
  | str : String → JsonVal
  | obj : List (String × JsonVal) → JsonVal
  | arr : List JsonVal → JsonVal

mutual

/-- Decidable equality on `JsonVal`, written by structural recursion because
the nested lists prevent the automatic derivation. -/
def decEqJson : (a b : JsonVal) → Decidable (a = b)
  | JsonVal.str a, JsonVal.str b =>
      if h : a = b then isTrue (by rw [h])
      else isFalse (fun hh => h (by injection hh))
  | JsonVal.obj a, JsonVal.obj b =>
      match decEqFields a b with
      | isTrue h => isTrue (by rw [h])
      | isFalse h => isFalse (fun hh => h (by injection hh))
  | JsonVal.arr a, JsonVal.arr b =>
      match decEqElems a b with
      | isTrue h => isTrue (by rw [h])
      | isFalse h => isFalse (fun hh => h (by injection hh))
  | JsonVal.str _, JsonVal.obj _ => isFalse (fun hh => by cases hh)
  | JsonVal.str _, JsonVal.arr _ => isFalse (fun hh => by cases hh)
  | JsonVal.obj _, JsonVal.str _ => isFalse (fun hh => by cases hh)
  | JsonVal.obj _, JsonVal.arr _ => isFalse (fun hh => by cases hh)
  | JsonVal.arr _, JsonVal.str _ => isFalse (fun hh => by cases hh)
  | JsonVal.arr _, JsonVal.obj _ => isFalse (fun hh => by cases hh)

/-- Decidable equality on JSON object field lists. -/
def decEqFields : (a b : List (String × JsonVal)) → Decidable (a = b)
  | [], [] => isTrue rfl
  | [], _ :: _ => isFalse (fun hh => by cases hh)
  | _ :: _, [] => isFalse (fun hh => by cases hh)
  | (k₁, v₁) :: r₁, (k₂, v₂) :: r₂ =>
      if hk : k₁ = k₂ then
        match decEqJson v₁ v₂ with
        | isTrue hv =>
            match decEqFields r₁ r₂ with
            | isTrue hr => isTrue (by rw [hk, hv, hr])
            | isFalse hr => isFalse (fun hh => hr (by injection hh))
        | isFalse hv => isFalse (fun hh => by
            injection hh with h₁ h₂
            injection h₁ with hk₂ hv₂
            exact hv hv₂)
      else isFalse (fun hh => by
        injection hh with h₁ h₂
        injection h₁ with hk₂ hv₂
        exact hk hk₂)

/-- Decidable equality on JSON array element lists. -/
def decEqElems : (a b : List JsonVal) → Decidable (a = b)
  | [], [] => isTrue rfl
  | [], _ :: _ => isFalse (fun hh => by cases hh)
  | _ :: _, [] => isFalse (fun hh => by cases hh)
  | v₁ :: r₁, v₂ :: r₂ =>
      match decEqJson v₁ v₂ with
      | isTrue hv =>
          match decEqElems r₁ r₂ with
          | isTrue hr => isTrue (by rw [hv, hr])
          | isFalse hr => isFalse (fun hh => hr (by injection hh))
      | isFalse hv => isFalse (fun hh => by
          injection hh with h₁ h₂
          exact hv h₁)

end

instance : DecidableEq JsonVal := decEqJson

/-- The envelope types of `MessageType` in `src/agent.py`. -/
inductive MessageType where
  | init
  | user
  | agentPartial
  | agentFinal
  | load_code
  | edit_code
  | get_code_for_display
  | code_display_response
  | update_in_progress
  | update_file
  | update_completed
deriving DecidableEq

/-- The `Message` dataclass of `src/agent.py`: `{id, timestamp, type, data}`. -/
structure Message where
  id : String
  timestamp : Int
  type : MessageType
  data : JsonVal
deriving DecidableEq

/-- `Message.new(type, data, id=None)` from `src/agent.py`.  The Python body is
`id or str(uuid.uuid4())`: a `None` id *or an empty-string id* (both falsy)
draw a fresh uuid from the supply `gen` at counter `u`; any other supplied id
is kept verbatim.  Returns the message and the updated draw counter. -/
def Message.new (gen : Nat → String) (u : Nat) (now : Int) (type : MessageType)
    (data : JsonVal) (id : Option String) : Message × Nat :=
  match id with
  | some s =>
      if s = "" then ({ id := gen u, timestamp := now, type := type, data := data }, u + 1)
      else ({ id := s, timestamp := now, type := type, data := data }, u)
  | none => ({ id := gen u, timestamp := now, type := type, data := data }, u + 1)

/-- One conversation turn (`{"role": ..., "content": ...}` appended by
`add_to_history`). -/
structure Turn where
  role : String
  content : String
deriving DecidableEq

/-- The `plan` field of a streamed item: a value string and a state string
(compared against the literal `"Complete"` in the source). -/
structure Plan where
  value : String
  state : String
deriving DecidableEq

/-- One entry of a streamed item's `files` list. -/
structure FileEntry where
  path : String
  content : String
deriving DecidableEq

/-- One Partial Generation Result as consumed by the `for partial in stream`
loop of `send_feedback`. -/
structure PartialResult where
  plan : Plan
  files : List FileEntry
deriving DecidableEq

/-- Failures of the workspace `load` step (spec section 4.3). -/
inductive LoadError where
  | notFound
  | transient
deriving DecidableEq

/-- Observable actions of one `send_feedback` cycle, in order: envelopes
yielded to the client and calls made to external collaborators. -/
inductive Event where
  | emit : Message → Event
  | loadCall : String → Event
  | streamCall : List Turn → String → List FileEntry → String → Event
  | writeCall : String → List (String × String) → Event
deriving DecidableEq

/-- How a cycle ended: normally, or by the exception that aborted it. -/
inductive Outcome where
  | completed
  | failedKey
  | failedLoad
  | failedStream
deriving DecidableEq

/-- Result of consuming one `send_feedback` cycle: the trace of events up to
completion or the aborting exception, the final conversation history, and
the outcome. -/
structure CycleResult where
  events : List Event
  history : List Turn
  outcome : Outcome
deriving DecidableEq

/-- Python `dict` lookup on an association list (first binding wins; the
source only inserts a key when absent, so bindings are unique). -/
def lookupStr (m : List (String × String)) (k : String) : Option String :=
  (m.find? (fun kv => kv.1 = k)).map (fun kv => kv.2)

/-- Python `key in dict` on an association list. -/
def hasKey (m : List (String × String)) (k : String) : Bool :=
  m.any (fun kv => kv.1 = k)

/-- Mutable state of the `for partial in stream` loop in `send_feedback`:
the `sent_plan` flag, the `new_code_map` dict (insertion order kept), the
conversation history, the events produced so far, and the uuid draw counter. -/
structure LoopState where
  sent_plan : Bool
  new_code_map : List (String × String)
  history : List Turn
  events : List Event
  u : Nat
deriving DecidableEq

/-- Yield one envelope built by `Message.new`: appends the emit event and
threads the uuid draw counter; the clock is read per constructed message. -/
def pushEmit (gen : Nat → String) (times : Nat → Int) (t : MessageType)
    (data : JsonVal) (id : Option String) (st : LoopState) : LoopState :=
  let mu := Message.new gen st.u (times st.events.length) t data id
  { st with events := st.events ++ [Event.emit mu.1], u := mu.2 }

/-- Body of the inner `for file in partial.files` loop of `send_feedback`:
if `file.path not in new_code_map`, yield one `update_file` envelope under
`file_msg_id` and record `new_code_map[file.path] = file.content`; the
recording happens only on this first sight, so a path's first content wins. -/
def stepFile (gen : Nat → String) (times : Nat → Int) (file_msg_id : String)
    (st : LoopState) (f : FileEntry) : LoopState :=
  if hasKey st.new_code_map f.path then st
  else
    let st1 := pushEmit gen times MessageType.update_file
      (JsonVal.obj [("text", JsonVal.str ("Working on " ++ f.path))])
      (some file_msg_id) st
    { st1 with new_code_map := st1.new_code_map ++ [(f.path, f.content)] }

/-- Body of the `for partial in stream` loop of `send_feedback`: stream the
growing plan under `plan_msg_id` while not complete, emit `agent_final` and
append the history pair at the first `"Complete"` item, then process the
item's files. -/
def stepItem (gen : Nat → String) (times : Nat → Int) (feedback : String)
    (plan_msg_id : String) (file_msg_id : String)
    (st : LoopState) (p : PartialResult) : LoopState :=
  let st1 :=
    if p.plan.state ≠ "Complete" ∧ st.sent_plan = false then
      pushEmit gen times MessageType.agentPartial
        (JsonVal.obj [("text", JsonVal.str p.plan.value)]) (some plan_msg_id) st
    else st
  let st2 :=
    if p.plan.state = "Complete" ∧ st1.sent_plan = false then
      let stE := pushEmit gen times MessageType.agentFinal
        (JsonVal.obj [("text", JsonVal.str p.plan.value)]) (some plan_msg_id) st1
      { stE with
        history := stE.history ++
          [{ role := "user", content := feedback },
           { role := "assistant", content := p.plan.value }],
        sent_plan := true }
    else st1
  p.files.foldl (stepFile gen times file_msg_id) st2

/-- The `Agent.send_feedback` cycle of `src/agent.py` as a trace function.
Inputs beyond the agent state (`init_data`, `history0`) and the `feedback`
string are the outcomes of the external collaborators: `loadRes` is what
`self.load_code(...)` returns or raises, `stream` is the list of items the
generation stream yields before either finishing (`streamOk = true`) or
raising (`streamOk = false`).  The trace records yields and external calls
in program order; an exception cuts the trace at the point it is raised. -/
def send_feedback (gen : Nat → String) (times : Nat → Int)
    (init_data : List (String × String)) (history0 : List Turn)
    (feedback : String)
    (loadRes : Except LoadError (List (String × String) × String))
    (stream : List PartialResult) (streamOk : Bool) : CycleResult :=
  let em0 := Message.new gen 0 (times 0) MessageType.update_in_progress (JsonVal.obj []) none
  let ev0 : List Event := [Event.emit em0.1]
  match lookupStr init_data "sandbox_id" with
  | none => { events := ev0, history := history0, outcome := Outcome.failedKey }
  | some sid =>
    match loadRes with
    | Except.error _ =>
        { events := ev0 ++ [Event.loadCall sid], history := history0,
          outcome := Outcome.failedLoad }
    | Except.ok cp =>
        let code_files : List FileEntry :=
          cp.1.map (fun kv => { path := kv.1, content := kv.2 })
        let ev1 := ev0 ++ [Event.loadCall sid,
          Event.streamCall history0 feedback code_files cp.2]
        let plan_msg_id := gen em0.2
        let file_msg_id := gen (em0.2 + 1)
        let st0 : LoopState :=
          { sent_plan := false, new_code_map := [], history := history0,
            events := ev1, u := em0.2 + 2 }
        let stF := stream.foldl (stepItem gen times feedback plan_msg_id file_msg_id) st0
        if streamOk then
          let ev2 := stF.events ++ [Event.writeCall sid stF.new_code_map]
          let emC := Message.new gen stF.u (times ev2.length)
            MessageType.update_completed (JsonVal.obj []) none
          { events := ev2 ++ [Event.emit emC.1], history := stF.history,
            outcome := Outcome.completed }
        else
          { events := stF.events, history := stF.history,
            outcome := Outcome.failedStream }

/-- A sandbox file tree entry, as walked by `_process_directory` in
`src/tools.py` (`file.is_dir` distinguishes the two cases). -/
inductive FsEntry where
  | file (name : String) (content : String) : FsEntry
  | dir (name : String) (entries : List FsEntry) : FsEntry

mutual

/-- One step of `_process_directory`: a plain file records
`file_map[str(full_path)] = content` with `full_path = Path(dir_path)/name`;
a directory recurses into it. -/
def processEntry : String → FsEntry → List (String × String)
  | d, FsEntry.file name content => [(d ++ "/" ++ name, content)]
  | d, FsEntry.dir name sub => processEntries (d ++ "/" ++ name) sub

/-- `_process_directory(dir_path)` over a directory listing, in listing
order; recursion appends a subdirectory's files in place. -/
def processEntries : String → List FsEntry → List (String × String)
  | _, [] => []
  | d, e :: rest => processEntry d e ++ processEntries d rest

end

/-- `DEFAULT_CODE_PATH` from `src/tools.py`. -/
def DEFAULT_CODE_PATH : String := "/app/src"

/-- The `load_code` MCP tool of `src/tools.py`: walks the tree rooted at
`DEFAULT_CODE_PATH` into a path-keyed file map and pairs it with the
`package.json` text; the pair is the tool's return value. -/
def tools_load_code (fs : List FsEntry) (package_json : String) :
    List (String × String) × String :=
  (processEntries DEFAULT_CODE_PATH fs, package_json)

/-- A string-valued map rendered as a JSON object. -/
def jsonOfMap (m : List (String × String)) : JsonVal :=
  JsonVal.obj (m.map (fun kv => (kv.1, JsonVal.str kv.2)))

/-- The `load_code` branch of `handler` in `src/agent.py`:
`agent.load_code` returns the JSON decoding of the tool result — the
two-element array `[file_map, package_json]` — and the branch wraps that
value unchanged as the `data` of one `load_code` envelope. -/
def handler_load_code (gen : Nat → String) (times : Nat → Int)
    (fs : List FsEntry) (pkg : String) : Message :=
  let code_map := tools_load_code fs pkg
  (Message.new gen 0 (times 0) MessageType.load_code
    (JsonVal.arr [jsonOfMap code_map.1, JsonVal.str code_map.2]) none).1

/-- The envelopes of a trace, in emission order. -/
def emits (evs : List Event) : List Message :=
  evs.filterMap (fun e => match e with | Event.emit m => some m | _ => none)

/-- Number of emitted envelopes of a given type in a trace. -/
def countType (t : MessageType) (evs : List Event) : Nat :=
  ((emits evs).filter (fun m => m.type = t)).length

/-- The write (commit) calls of a trace, with their arguments. -/
def writeCalls (evs : List Event) : List (String × List (String × String)) :=
  evs.filterMap (fun e => match e with
    | Event.writeCall sid m => some (sid, m)
    | _ => none)

/-- All file entries of a consumed stream, in arrival order (items in stream
order, entries in list order within an item). -/
def allFiles (stream : List PartialResult) : List FileEntry :=
  (stream.map (fun p => p.files)).flatten

/-- All file paths of a consumed stream, in arrival order. -/
def allPaths (stream : List PartialResult) : List String :=
  (allFiles stream).map (fun f => f.path)

/-- The content attached to the first occurrence of a path in the stream,
if the path occurs at all. -/
def firstContent (stream : List PartialResult) (p : String) : Option String :=
  ((allFiles stream).find? (fun f => f.path = p)).map (fun f => f.content)

/-- Kinds of envelopes the stream loop can emit: partial/final plan envelopes
under the plan id, file envelopes under the file id. -/
def loopEmitKind (pid fid : String) (m : Message) : Prop :=
  ((m.type = MessageType.agentPartial ∨ m.type = MessageType.agentFinal)
      ∧ (pid ≠ "" → m.id = pid))
    ∨ (m.type = MessageType.update_file ∧ (fid ≠ "" → m.id = fid))

/-- Whether a load result is a success (models `load_code` returning rather
than raising). -/
def loadSucceeded (r : Except LoadError (List (String × String) × String)) : Bool :=
  match r with
  | Except.ok _ => true
  | Except.error _ => false

/-- Sample uuid supply for concrete runs (uuid4 strings are never empty). -/
def sampleGen : Nat → String := fun n => "uuid-" ++ toString n

/-- Sample clock for concrete runs. -/
def sampleTimes : Nat → Int := fun n => n

/-- Sample stream: two items mentioning the same path with different content,
then completing — the spec's duplicate-path scenario. -/
def sampleStream : List PartialResult :=
  [{ plan := { value := "p", state := "InProgress" },
     files := [{ path := "src/App.tsx", content := "A" }] },
   { plan := { value := "plan done", state := "Complete" },
     files := [{ path := "src/App.tsx", content := "A" },
               { path := "src/App.tsx", content := "B" }] }]

/-- The loop state of `send_feedback` on entry to the stream loop: the
initial envelope and the two external calls have happened, three uuids have
been drawn, and the edit map is empty. -/
def st0Of (gen : Nat → String) (times : Nat → Int) (history0 : List Turn)
    (feedback : String) (cm : List (String × String)) (pkg : String)
    (sid : String) : LoopState :=
  { sent_plan := false, new_code_map := [], history := history0,
    events := [Event.emit (Message.new gen 0 (times 0)
        MessageType.update_in_progress (JsonVal.obj []) none).1,
      Event.loadCall sid,
      Event.streamCall history0 feedback
        (cm.map (fun kv => { path := kv.1, content := kv.2 })) pkg],
    u := 3 }

/-! ### Basic facts about envelopes and traces -/

theorem Message_new_type (gen : Nat → String) (u : Nat) (now : Int)
    (t : MessageType) (d : JsonVal) (i : Option String) :
    (Message.new gen u now t d i).1.type = t := by
  unfold Message.new
  cases i with
  | none => rfl
  | some s => by_cases h : s = "" <;> simp [h]

theorem Message_new_id_of_ne (gen : Nat → String) (u : Nat) (now : Int)
    (t : MessageType) (d : JsonVal) (s : String) (h : s ≠ "") :
    (Message.new gen u now t d (some s)).1.id = s := by
  unfold Message.new
  simp [h]

theorem Message_new_id_none (gen : Nat → String) (u : Nat) (now : Int)
    (t : MessageType) (d : JsonVal) :
    (Message.new gen u now t d none).1.id = gen u := rfl

theorem mem_emits {m : Message} {evs : List Event} :
    m ∈ emits evs ↔ Event.emit m ∈ evs := by
  simp only [emits, List.mem_filterMap]
  constructor
  · rintro ⟨e, he, hm⟩
    cases e <;> simp only [Option.some.injEq, reduceCtorEq] at hm
    rwa [hm] at he
  · intro h
    exact ⟨Event.emit m, h, rfl⟩

theorem emits_append (a b : List Event) : emits (a ++ b) = emits a ++ emits b := by
  simp [emits, List.filterMap_append]

theorem countType_append (t : MessageType) (a b : List Event) :
    countType t (a ++ b) = countType t a + countType t b := by
  simp [countType, emits_append, List.filter_append]

theorem countType_emit (t : MessageType) (m : Message) :
    countType t [Event.emit m] = if m.type = t then 1 else 0 := by
  by_cases h : m.type = t <;> simp [countType, emits, h]

theorem countType_eq_zero_of_types {t : MessageType} {evs : List Event}
    (h : ∀ e ∈ evs, ∃ m, e = Event.emit m ∧ m.type ≠ t) :
    countType t evs = 0 := by
  simp only [countType, List.length_eq_zero, List.filter_eq_nil_iff]
  intro m hm
  obtain ⟨_, hmem, hmt⟩ := h (Event.emit m) (mem_emits.1 hm)
  simp only [Event.emit.injEq] at hmem
  rw [hmem]
  simpa using hmt

theorem writeCalls_append (a b : List Event) :
    writeCalls (a ++ b) = writeCalls a ++ writeCalls b := by
  simp [writeCalls, List.filterMap_append]

theorem writeCalls_eq_nil_of_emits {evs : List Event}
    (h : ∀ e ∈ evs, ∃ m, e = Event.emit m) : writeCalls evs = [] := by
  simp only [writeCalls, List.filterMap_eq_nil_iff]
  intro e he
  obtain ⟨m, rfl⟩ := h e he
  rfl

theorem hasKey_iff_mem {m : List (String × String)} {k : String} :
    hasKey m k = true ↔ k ∈ m.map (fun kv => kv.1) := by
  simp [hasKey, List.any_eq_true, List.mem_map]

theorem lookupStr_isSome (m : List (String × String)) (k : String) :
    (lookupStr m k).isSome = hasKey m k := by
  unfold lookupStr hasKey
  induction m with
  | nil => rfl
  | cons kv r ih =>
      by_cases h : kv.1 = k <;> simp [List.find?_cons, List.any_cons, h, ih]

theorem lookupStr_append_single (m : List (String × String)) (q c p : String) :
    lookupStr (m ++ [(q, c)]) p
      = (lookupStr m p).or (if q = p then some c else none) := by
  unfold lookupStr
  rw [List.find?_append]
  cases h : m.find? (fun kv => kv.1 = p) with
  | some kv => simp
  | none =>
      by_cases hq : q = p <;> simp [List.find?, hq]

/-! ### Invariants of the inner file loop of `send_feedback` -/

theorem stepFile_sent_plan (gen : Nat → String) (times : Nat → Int) (fid : String)
    (st : LoopState) (f : FileEntry) :
    (stepFile gen times fid st f).sent_plan = st.sent_plan := by
  unfold stepFile pushEmit
  split <;> rfl

theorem stepFile_history (gen : Nat → String) (times : Nat → Int) (fid : String)
    (st : LoopState) (f : FileEntry) :
    (stepFile gen times fid st f).history = st.history := by
  unfold stepFile pushEmit
  split <;> rfl

theorem stepFile_ncm (gen : Nat → String) (times : Nat → Int) (fid : String)
    (st : LoopState) (f : FileEntry) :
    (stepFile gen times fid st f).new_code_map
      = if hasKey st.new_code_map f.path then st.new_code_map
        else st.new_code_map ++ [(f.path, f.content)] := by
  unfold stepFile pushEmit
  by_cases h : hasKey st.new_code_map f.path = true <;> simp [h]

theorem stepFile_events (gen : Nat → String) (times : Nat → Int) (fid : String)
    (st : LoopState) (f : FileEntry) :
    ∃ ext, (stepFile gen times fid st f).events = st.events ++ ext ∧
      ∀ e ∈ ext, ∃ m, e = Event.emit m ∧ m.type = MessageType.update_file ∧
        (fid ≠ "" → m.id = fid) := by
  unfold stepFile pushEmit
  split
  · exact ⟨[], by simp, by simp⟩
  · refine ⟨_, rfl, ?_⟩
    intro e he
    simp only [List.mem_singleton] at he
    refine ⟨_, he, Message_new_type _ _ _ _ _ _, fun hf => ?_⟩
    exact Message_new_id_of_ne _ _ _ _ _ _ hf

theorem foldFiles_sent_plan (gen : Nat → String) (times : Nat → Int) (fid : String)
    (fs : List FileEntry) (st : LoopState) :
    (fs.foldl (stepFile gen times fid) st).sent_plan = st.sent_plan := by
  induction fs generalizing st with
  | nil => rfl
  | cons f fs ih => rw [List.foldl_cons, ih, stepFile_sent_plan]

theorem foldFiles_history (gen : Nat → String) (times : Nat → Int) (fid : String)
    (fs : List FileEntry) (st : LoopState) :
    (fs.foldl (stepFile gen times fid) st).history = st.history := by
  induction fs generalizing st with
  | nil => rfl
  | cons f fs ih => rw [List.foldl_cons, ih, stepFile_history]

theorem foldFiles_events (gen : Nat → String) (times : Nat → Int) (fid : String)
    (fs : List FileEntry) (st : LoopState) :
    ∃ ext, (fs.foldl (stepFile gen times fid) st).events = st.events ++ ext ∧
      ∀ e ∈ ext, ∃ m, e = Event.emit m ∧ m.type = MessageType.update_file ∧
        (fid ≠ "" → m.id = fid) := by
  induction fs generalizing st with
  | nil => exact ⟨[], by simp, by simp⟩
  | cons f fs ih =>
      obtain ⟨e₁, he₁, hp₁⟩ := stepFile_events gen times fid st f
      obtain ⟨e₂, he₂, hp₂⟩ := ih (stepFile gen times fid st f)
      refine ⟨e₁ ++ e₂, ?_, ?_⟩
      · rw [List.foldl_cons, he₂, he₁, List.append_assoc]
      · intro e he
        rcases List.mem_append.1 he with h | h
        exacts [hp₁ e h, hp₂ e h]


theorem Option_some_or {α : Type} (a : α) (b : Option α) : (some a).or b = some a := rfl

theorem lookupStr_eq_none_of_hasKey_false {m : List (String × String)} {k : String}
    (h : hasKey m k = false) : lookupStr m k = none := by
  rw [← Option.not_isSome_iff_eq_none, lookupStr_isSome, h]
  simp

theorem stepFile_count (gen : Nat → String) (times : Nat → Int) (fid : String)
    (st : LoopState) (f : FileEntry) :
    countType MessageType.update_file (stepFile gen times fid st f).events
      = countType MessageType.update_file st.events
        + (if hasKey st.new_code_map f.path then 0 else 1) := by
  unfold stepFile pushEmit
  by_cases h : hasKey st.new_code_map f.path = true
  · simp [h]
  · simp [h, countType_append, countType_emit, Message_new_type]

theorem stepFile_ncm_length (gen : Nat → String) (times : Nat → Int) (fid : String)
    (st : LoopState) (f : FileEntry) :
    (stepFile gen times fid st f).new_code_map.length
      = st.new_code_map.length + (if hasKey st.new_code_map f.path then 0 else 1) := by
  rw [stepFile_ncm]
  by_cases h : hasKey st.new_code_map f.path = true <;> simp [h]

theorem foldFiles_count_ncm (gen : Nat → String) (times : Nat → Int) (fid : String)
    (fs : List FileEntry) (st : LoopState) :
    countType MessageType.update_file (fs.foldl (stepFile gen times fid) st).events
        + st.new_code_map.length
      = countType MessageType.update_file st.events
        + (fs.foldl (stepFile gen times fid) st).new_code_map.length := by
  induction fs generalizing st with
  | nil => simp
  | cons f fs ih =>
      rw [List.foldl_cons]
      have h₁ := ih (stepFile gen times fid st f)
      have h₂ := stepFile_count gen times fid st f
      have h₃ := stepFile_ncm_length gen times fid st f
      by_cases h : hasKey st.new_code_map f.path = true <;>
        simp only [h, if_true, Bool.false_eq_true, if_false] at h₂ h₃ <;> omega

theorem foldFiles_mem_keys (gen : Nat → String) (times : Nat → Int) (fid : String)
    (fs : List FileEntry) (st : LoopState) (x : String) :
    (x ∈ (fs.foldl (stepFile gen times fid) st).new_code_map.map (fun kv => kv.1))
      ↔ x ∈ st.new_code_map.map (fun kv => kv.1) ∨ x ∈ fs.map (fun f => f.path) := by
  induction fs generalizing st with
  | nil => simp
  | cons f fs ih =>
      rw [List.foldl_cons, ih]
      rw [stepFile_ncm]
      by_cases h : hasKey st.new_code_map f.path = true
      · have hf := hasKey_iff_mem.1 h
        simp only [h, if_true, List.map_cons, List.mem_cons]
        constructor
        · rintro (hx | hx)
          exacts [Or.inl hx, Or.inr (Or.inr hx)]
        · rintro (hx | hx | hx)
          exacts [Or.inl hx, Or.inl (hx ▸ hf), Or.inr hx]
      · simp only [h, Bool.false_eq_true, if_false, List.map_append, List.map_cons,
          List.mem_append, List.mem_cons, List.map_nil, List.mem_singleton]
        tauto

theorem foldFiles_keys_nodup (gen : Nat → String) (times : Nat → Int) (fid : String)
    (fs : List FileEntry) (st : LoopState)
    (h : (st.new_code_map.map (fun kv => kv.1)).Nodup) :
    ((fs.foldl (stepFile gen times fid) st).new_code_map.map (fun kv => kv.1)).Nodup := by
  induction fs generalizing st with
  | nil => exact h
  | cons f fs ih =>
      rw [List.foldl_cons]
      apply ih
      rw [stepFile_ncm]
      by_cases hk : hasKey st.new_code_map f.path = true
      · simpa [hk] using h
      · have hf : f.path ∉ st.new_code_map.map (fun kv => kv.1) := by
          intro hmem
          rw [← hasKey_iff_mem] at hmem
          simp [hmem] at hk
        rw [if_neg (by simp [hk]), List.map_append]
        refine List.Nodup.append h (List.nodup_singleton _) ?_
        intro a ha hb
        simp only [List.map_cons, List.map_nil, List.mem_singleton] at hb
        exact hf (hb ▸ ha)

theorem foldFiles_lookup (gen : Nat → String) (times : Nat → Int) (fid : String)
    (fs : List FileEntry) (st : LoopState) (p : String) :
    lookupStr (fs.foldl (stepFile gen times fid) st).new_code_map p
      = (lookupStr st.new_code_map p).or
          ((fs.find? (fun f => f.path = p)).map (fun f => f.content)) := by
  induction fs generalizing st with
  | nil => simp [Option.or_none]
  | cons f fs ih =>
      rw [List.foldl_cons, ih]
      by_cases hk : hasKey st.new_code_map f.path = true
      · rw [stepFile_ncm, if_pos hk]
        by_cases hp : f.path = p
        · subst hp
          obtain ⟨c, hc⟩ := Option.isSome_iff_exists.1 (by rw [lookupStr_isSome, hk])
          rw [hc]
          simp [List.find?_cons, Option_some_or]
        · simp [List.find?_cons, hp]
      · rw [stepFile_ncm, if_neg (by simp [hk]), lookupStr_append_single]
        by_cases hp : f.path = p
        · subst hp
          rw [lookupStr_eq_none_of_hasKey_false (by simpa using hk)]
          simp [List.find?_cons, Option.none_or, Option_some_or]
        · simp [List.find?_cons, hp, Option.or_none, Option.or_assoc]

/-! ### Invariants of the outer item loop of `send_feedback` -/

theorem Option_map_or {α β : Type} (f : α → β) (a b : Option α) :
    (a.or b).map f = (a.map f).or (b.map f) := by
  cases a <;> rfl

theorem pushEmit_sent_plan (gen : Nat → String) (times : Nat → Int) (t : MessageType)
    (d : JsonVal) (i : Option String) (st : LoopState) :
    (pushEmit gen times t d i st).sent_plan = st.sent_plan := rfl

theorem pushEmit_history (gen : Nat → String) (times : Nat → Int) (t : MessageType)
    (d : JsonVal) (i : Option String) (st : LoopState) :
    (pushEmit gen times t d i st).history = st.history := rfl

theorem pushEmit_ncm (gen : Nat → String) (times : Nat → Int) (t : MessageType)
    (d : JsonVal) (i : Option String) (st : LoopState) :
    (pushEmit gen times t d i st).new_code_map = st.new_code_map := rfl

theorem pushEmit_events (gen : Nat → String) (times : Nat → Int) (t : MessageType)
    (d : JsonVal) (i : Option String) (st : LoopState) :
    (pushEmit gen times t d i st).events
      = st.events ++ [Event.emit (Message.new gen st.u (times st.events.length) t d i).1] := rfl


theorem stepItem_sent_plan (gen : Nat → String) (times : Nat → Int)
    (feedback pid fid : String) (st : LoopState) (p : PartialResult) :
    (stepItem gen times feedback pid fid st p).sent_plan
      = (st.sent_plan || decide (p.plan.state = "Complete")) := by
  unfold stepItem
  rw [foldFiles_sent_plan]
  cases hs : st.sent_plan <;> by_cases hc : p.plan.state = "Complete" <;>
    simp [hs, hc, pushEmit_sent_plan]

theorem stepItem_history (gen : Nat → String) (times : Nat → Int)
    (feedback pid fid : String) (st : LoopState) (p : PartialResult) :
    (stepItem gen times feedback pid fid st p).history
      = st.history ++
          (if p.plan.state = "Complete" ∧ st.sent_plan = false then
            [{ role := "user", content := feedback },
             { role := "assistant", content := p.plan.value }]
          else []) := by
  unfold stepItem
  rw [foldFiles_history]
  cases hs : st.sent_plan <;> by_cases hc : p.plan.state = "Complete" <;>
    simp [hs, hc, pushEmit_sent_plan, pushEmit_history]

theorem stepItem_ncm (gen : Nat → String) (times : Nat → Int)
    (feedback pid fid : String) (st : LoopState) (p : PartialResult) :
    ∃ st₂ : LoopState, stepItem gen times feedback pid fid st p
        = p.files.foldl (stepFile gen times fid) st₂ ∧
      st₂.new_code_map = st.new_code_map ∧
      countType MessageType.update_file st₂.events
        = countType MessageType.update_file st.events := by
  unfold stepItem
  refine ⟨_, rfl, ?_, ?_⟩ <;>
    cases hs : st.sent_plan <;> by_cases hc : p.plan.state = "Complete" <;>
      simp [hs, hc, pushEmit_ncm, pushEmit_events, countType_append, countType_emit,
        Message_new_type]

theorem stepItem_of_sent (gen : Nat → String) (times : Nat → Int)
    (feedback pid fid : String) (st : LoopState) (p : PartialResult)
    (hs : st.sent_plan = true) :
    stepItem gen times feedback pid fid st p
      = p.files.foldl (stepFile gen times fid) st := by
  simp [stepItem, hs]

theorem stepItem_of_inprogress (gen : Nat → String) (times : Nat → Int)
    (feedback pid fid : String) (st : LoopState) (p : PartialResult)
    (hc : p.plan.state ≠ "Complete") (hs : st.sent_plan = false) :
    stepItem gen times feedback pid fid st p
      = p.files.foldl (stepFile gen times fid)
          (pushEmit gen times MessageType.agentPartial
            (JsonVal.obj [("text", JsonVal.str p.plan.value)]) (some pid) st) := by
  simp [stepItem, hc, hs, pushEmit_sent_plan]

theorem stepItem_of_complete (gen : Nat → String) (times : Nat → Int)
    (feedback pid fid : String) (st : LoopState) (p : PartialResult)
    (hc : p.plan.state = "Complete") (hs : st.sent_plan = false) :
    stepItem gen times feedback pid fid st p
      = p.files.foldl (stepFile gen times fid)
          { pushEmit gen times MessageType.agentFinal
              (JsonVal.obj [("text", JsonVal.str p.plan.value)]) (some pid) st with
            history := st.history ++
              [{ role := "user", content := feedback },
               { role := "assistant", content := p.plan.value }],
            sent_plan := true } := by
  simp [stepItem, hc, hs, pushEmit_sent_plan, pushEmit_history]

theorem foldFiles_countType_ne (gen : Nat → String) (times : Nat → Int) (fid : String)
    (t : MessageType) (fs : List FileEntry) (st : LoopState)
    (h : t ≠ MessageType.update_file) :
    countType t (fs.foldl (stepFile gen times fid) st).events
      = countType t st.events := by
  obtain ⟨ext, hev, hp⟩ := foldFiles_events gen times fid fs st
  have hz : countType t ext = 0 := countType_eq_zero_of_types (fun e he => by
    obtain ⟨m, rfl, hm, _⟩ := hp e he
    exact ⟨m, rfl, by rw [hm]; exact fun hcontra => h hcontra.symm⟩)
  rw [hev, countType_append, hz, Nat.add_zero]

theorem stepItem_count_final (gen : Nat → String) (times : Nat → Int)
    (feedback pid fid : String) (st : LoopState) (p : PartialResult) :
    countType MessageType.agentFinal (stepItem gen times feedback pid fid st p).events
      = countType MessageType.agentFinal st.events
        + (if p.plan.state = "Complete" ∧ st.sent_plan = false then 1 else 0) := by
  cases hs : st.sent_plan
  · by_cases hc : p.plan.state = "Complete"
    · rw [stepItem_of_complete gen times feedback pid fid st p hc hs,
        foldFiles_countType_ne _ _ _ _ _ _ (by intro h; cases h)]
      simp [hc, hs, pushEmit_events, countType_append, countType_emit, Message_new_type]
    · rw [stepItem_of_inprogress gen times feedback pid fid st p hc hs,
        foldFiles_countType_ne _ _ _ _ _ _ (by intro h; cases h)]
      simp [hc, pushEmit_events, countType_append, countType_emit, Message_new_type]
  · rw [stepItem_of_sent gen times feedback pid fid st p hs,
      foldFiles_countType_ne _ _ _ _ _ _ (by intro h; cases h)]
    simp [hs]

theorem stepItem_events (gen : Nat → String) (times : Nat → Int)
    (feedback pid fid : String) (st : LoopState) (p : PartialResult) :
    ∃ ext, (stepItem gen times feedback pid fid st p).events = st.events ++ ext ∧
      ∀ e ∈ ext, ∃ m, e = Event.emit m ∧ loopEmitKind pid fid m := by
  have hplan : ∀ (t : MessageType), (t = MessageType.agentPartial ∨ t = MessageType.agentFinal) →
      ∀ (st' : LoopState), ∀ e ∈ [Event.emit (Message.new gen st'.u (times st'.events.length) t
        (JsonVal.obj [("text", JsonVal.str p.plan.value)]) (some pid)).1],
      ∃ m, e = Event.emit m ∧ loopEmitKind pid fid m := by
    intro t ht st' e he
    simp only [List.mem_singleton] at he
    refine ⟨_, he, Or.inl ⟨?_, fun hne => Message_new_id_of_ne _ _ _ _ _ _ hne⟩⟩
    rw [Message_new_type]
    exact ht
  cases hs : st.sent_plan
  · by_cases hc : p.plan.state = "Complete"
    · rw [stepItem_of_complete gen times feedback pid fid st p hc hs]
      obtain ⟨ext, hev, hp⟩ := foldFiles_events gen times fid p.files
        { pushEmit gen times MessageType.agentFinal
            (JsonVal.obj [("text", JsonVal.str p.plan.value)]) (some pid) st with
          history := st.history ++
            [{ role := "user", content := feedback },
             { role := "assistant", content := p.plan.value }],
          sent_plan := true }
      refine ⟨[Event.emit (Message.new gen st.u (times st.events.length)
          MessageType.agentFinal (JsonVal.obj [("text", JsonVal.str p.plan.value)])
          (some pid)).1] ++ ext, ?_, ?_⟩
      · rw [hev]
        simp [pushEmit_events, List.append_assoc]
      · intro e he
        rcases List.mem_append.1 he with h | h
        · exact hplan MessageType.agentFinal (Or.inr rfl) st e h
        · obtain ⟨m, rfl, hm, hid⟩ := hp e h
          exact ⟨m, rfl, Or.inr ⟨hm, hid⟩⟩
    · rw [stepItem_of_inprogress gen times feedback pid fid st p hc hs]
      obtain ⟨ext, hev, hp⟩ := foldFiles_events gen times fid p.files
        (pushEmit gen times MessageType.agentPartial
          (JsonVal.obj [("text", JsonVal.str p.plan.value)]) (some pid) st)
      refine ⟨[Event.emit (Message.new gen st.u (times st.events.length)
          MessageType.agentPartial (JsonVal.obj [("text", JsonVal.str p.plan.value)])
          (some pid)).1] ++ ext, ?_, ?_⟩
      · rw [hev]
        simp [pushEmit_events, List.append_assoc]
      · intro e he
        rcases List.mem_append.1 he with h | h
        · exact hplan MessageType.agentPartial (Or.inl rfl) st e h
        · obtain ⟨m, rfl, hm, hid⟩ := hp e h
          exact ⟨m, rfl, Or.inr ⟨hm, hid⟩⟩
  · rw [stepItem_of_sent gen times feedback pid fid st p hs]
    obtain ⟨ext, hev, hp⟩ := foldFiles_events gen times fid p.files st
    refine ⟨ext, hev, ?_⟩
    intro e he
    obtain ⟨m, rfl, hm, hid⟩ := hp e he
    exact ⟨m, rfl, Or.inr ⟨hm, hid⟩⟩

theorem stepItem_count_ncm (gen : Nat → String) (times : Nat → Int)
    (feedback pid fid : String) (st : LoopState) (p : PartialResult) :
    countType MessageType.update_file (stepItem gen times feedback pid fid st p).events
        + st.new_code_map.length
      = countType MessageType.update_file st.events
        + (stepItem gen times feedback pid fid st p).new_code_map.length := by
  obtain ⟨st₂, heq, hncm, hcount⟩ := stepItem_ncm gen times feedback pid fid st p
  rw [heq]
  have h := foldFiles_count_ncm gen times fid p.files st₂
  rw [hncm, hcount] at h
  exact h

theorem stepItem_mem_keys (gen : Nat → String) (times : Nat → Int)
    (feedback pid fid : String) (st : LoopState) (p : PartialResult) (x : String) :
    (x ∈ (stepItem gen times feedback pid fid st p).new_code_map.map (fun kv => kv.1))
      ↔ x ∈ st.new_code_map.map (fun kv => kv.1) ∨ x ∈ p.files.map (fun f => f.path) := by
  obtain ⟨st₂, heq, hncm, _⟩ := stepItem_ncm gen times feedback pid fid st p
  rw [heq, foldFiles_mem_keys, hncm]

theorem stepItem_keys_nodup (gen : Nat → String) (times : Nat → Int)
    (feedback pid fid : String) (st : LoopState) (p : PartialResult)
    (h : (st.new_code_map.map (fun kv => kv.1)).Nodup) :
    ((stepItem gen times feedback pid fid st p).new_code_map.map (fun kv => kv.1)).Nodup := by
  obtain ⟨st₂, heq, hncm, _⟩ := stepItem_ncm gen times feedback pid fid st p
  rw [heq]
  exact foldFiles_keys_nodup gen times fid p.files st₂ (by rw [hncm]; exact h)

theorem stepItem_lookup (gen : Nat → String) (times : Nat → Int)
    (feedback pid fid : String) (st : LoopState) (p : PartialResult) (q : String) :
    lookupStr (stepItem gen times feedback pid fid st p).new_code_map q
      = (lookupStr st.new_code_map q).or
          ((p.files.find? (fun f => f.path = q)).map (fun f => f.content)) := by
  obtain ⟨st₂, heq, hncm, _⟩ := stepItem_ncm gen times feedback pid fid st p
  rw [heq, foldFiles_lookup, hncm]

theorem allPaths_cons (p : PartialResult) (s : List PartialResult) :
    allPaths (p :: s) = p.files.map (fun f => f.path) ++ allPaths s := by
  simp [allPaths, allFiles]

theorem firstContent_cons (p : PartialResult) (s : List PartialResult) (q : String) :
    firstContent (p :: s) q
      = ((p.files.find? (fun f => f.path = q)).map (fun f => f.content)).or
          (firstContent s q) := by
  simp only [firstContent, allFiles, List.map_cons, List.flatten_cons, List.find?_append]
  exact Option_map_or _ _ _

theorem foldItems_sent_plan (gen : Nat → String) (times : Nat → Int)
    (feedback pid fid : String) (s : List PartialResult) (st : LoopState) :
    (s.foldl (stepItem gen times feedback pid fid) st).sent_plan
      = (st.sent_plan || s.any (fun p => p.plan.state = "Complete")) := by
  induction s generalizing st with
  | nil => simp
  | cons q s ih =>
      rw [List.foldl_cons, ih, stepItem_sent_plan]
      simp [List.any_cons, Bool.or_assoc]

theorem foldItems_history (gen : Nat → String) (times : Nat → Int)
    (feedback pid fid : String) (s : List PartialResult) (st : LoopState) :
    (s.foldl (stepItem gen times feedback pid fid) st).history
      = st.history ++
          (if st.sent_plan = true then []
           else match s.find? (fun p => p.plan.state = "Complete") with
             | some p => [{ role := "user", content := feedback },
                          { role := "assistant", content := p.plan.value }]
             | none => []) := by
  induction s generalizing st with
  | nil => cases hs : st.sent_plan <;> simp [hs]
  | cons q s ih =>
      rw [List.foldl_cons, ih, stepItem_history, stepItem_sent_plan]
      cases hs : st.sent_plan <;> by_cases hc : q.plan.state = "Complete" <;>
        simp [hs, hc, List.find?_cons]

theorem foldItems_count_final (gen : Nat → String) (times : Nat → Int)
    (feedback pid fid : String) (s : List PartialResult) (st : LoopState) :
    countType MessageType.agentFinal
        (s.foldl (stepItem gen times feedback pid fid) st).events
      = countType MessageType.agentFinal st.events
        + (if st.sent_plan = false ∧ s.any (fun p => p.plan.state = "Complete") = true
           then 1 else 0) := by
  induction s generalizing st with
  | nil => cases hs : st.sent_plan <;> simp [hs]
  | cons q s ih =>
      rw [List.foldl_cons, ih, stepItem_count_final, stepItem_sent_plan]
      cases hs : st.sent_plan <;> by_cases hc : q.plan.state = "Complete" <;>
        simp [hs, hc, List.any_cons]

theorem foldItems_count_ncm (gen : Nat → String) (times : Nat → Int)
    (feedback pid fid : String) (s : List PartialResult) (st : LoopState) :
    countType MessageType.update_file
        (s.foldl (stepItem gen times feedback pid fid) st).events
        + st.new_code_map.length
      = countType MessageType.update_file st.events
        + (s.foldl (stepItem gen times feedback pid fid) st).new_code_map.length := by
  induction s generalizing st with
  | nil => simp
  | cons q s ih =>
      rw [List.foldl_cons]
      have h₁ := ih (stepItem gen times feedback pid fid st q)
      have h₂ := stepItem_count_ncm gen times feedback pid fid st q
      omega

theorem foldItems_mem_keys (gen : Nat → String) (times : Nat → Int)
    (feedback pid fid : String) (s : List PartialResult) (st : LoopState) (x : String) :
    (x ∈ (s.foldl (stepItem gen times feedback pid fid) st).new_code_map.map
        (fun kv => kv.1))
      ↔ x ∈ st.new_code_map.map (fun kv => kv.1) ∨ x ∈ allPaths s := by
  induction s generalizing st with
  | nil => simp [allPaths, allFiles]
  | cons q s ih =>
      rw [List.foldl_cons, ih, stepItem_mem_keys, allPaths_cons]
      simp only [List.mem_append]
      tauto

theorem foldItems_keys_nodup (gen : Nat → String) (times : Nat → Int)
    (feedback pid fid : String) (s : List PartialResult) (st : LoopState)
    (h : (st.new_code_map.map (fun kv => kv.1)).Nodup) :
    ((s.foldl (stepItem gen times feedback pid fid) st).new_code_map.map
        (fun kv => kv.1)).Nodup := by
  induction s generalizing st with
  | nil => exact h
  | cons q s ih =>
      rw [List.foldl_cons]
      exact ih _ (stepItem_keys_nodup gen times feedback pid fid st q h)

theorem foldItems_lookup (gen : Nat → String) (times : Nat → Int)
    (feedback pid fid : String) (s : List PartialResult) (st : LoopState) (q : String) :
    lookupStr (s.foldl (stepItem gen times feedback pid fid) st).new_code_map q
      = (lookupStr st.new_code_map q).or (firstContent s q) := by
  induction s generalizing st with
  | nil => simp [firstContent, allFiles, Option.or_none]
  | cons p s ih =>
      rw [List.foldl_cons, ih, stepItem_lookup, Option.or_assoc, firstContent_cons]

theorem foldItems_events (gen : Nat → String) (times : Nat → Int)
    (feedback pid fid : String) (s : List PartialResult) (st : LoopState) :
    ∃ ext, (s.foldl (stepItem gen times feedback pid fid) st).events
        = st.events ++ ext ∧
      ∀ e ∈ ext, ∃ m, e = Event.emit m ∧ loopEmitKind pid fid m := by
  induction s generalizing st with
  | nil => exact ⟨[], by simp, by simp⟩
  | cons q s ih =>
      obtain ⟨e₁, he₁, hp₁⟩ := stepItem_events gen times feedback pid fid st q
      obtain ⟨e₂, he₂, hp₂⟩ := ih (stepItem gen times feedback pid fid st q)
      refine ⟨e₁ ++ e₂, ?_, ?_⟩
      · rw [List.foldl_cons, he₂, he₁, List.append_assoc]
      · intro e he
        rcases List.mem_append.1 he with h | h
        exacts [hp₁ e h, hp₂ e h]

theorem foldItems_writeCalls (gen : Nat → String) (times : Nat → Int)
    (feedback pid fid : String) (s : List PartialResult) (st : LoopState) :
    writeCalls (s.foldl (stepItem gen times feedback pid fid) st).events
      = writeCalls st.events := by
  obtain ⟨ext, hev, hp⟩ := foldItems_events gen times feedback pid fid s st
  have hz : writeCalls ext = [] := writeCalls_eq_nil_of_emits (fun e he => by
    obtain ⟨m, rfl, _⟩ := hp e he
    exact ⟨m, rfl⟩)
  rw [hev, writeCalls_append, hz, List.append_nil]

theorem foldItems_countType_outside (gen : Nat → String) (times : Nat → Int)
    (feedback pid fid : String) (t : MessageType) (s : List PartialResult) (st : LoopState)
    (h₁ : t ≠ MessageType.agentPartial) (h₂ : t ≠ MessageType.agentFinal)
    (h₃ : t ≠ MessageType.update_file) :
    countType t (s.foldl (stepItem gen times feedback pid fid) st).events
      = countType t st.events := by
  obtain ⟨ext, hev, hp⟩ := foldItems_events gen times feedback pid fid s st
  have hz : countType t ext = 0 := countType_eq_zero_of_types (fun e he => by
    obtain ⟨m, rfl, hk⟩ := hp e he
    refine ⟨m, rfl, ?_⟩
    rcases hk with ⟨ht | ht, _⟩ | ⟨ht, _⟩ <;> rw [ht] <;>
      first
        | exact fun hcontra => h₁ hcontra.symm
        | exact fun hcontra => h₂ hcontra.symm
        | exact fun hcontra => h₃ hcontra.symm)
  rw [hev, countType_append, hz, Nat.add_zero]

/-! ### Claim theorems -/




theorem countType_writeCall (t : MessageType) (sid : String)
    (m : List (String × String)) :
    countType t [Event.writeCall sid m] = 0 := rfl


theorem send_feedback_keyMissing (gen : Nat → String) (times : Nat → Int)
    (init_data : List (String × String)) (history0 : List Turn) (feedback : String)
    (loadRes : Except LoadError (List (String × String) × String))
    (stream : List PartialResult) (streamOk : Bool)
    (h : lookupStr init_data "sandbox_id" = none) :
    send_feedback gen times init_data history0 feedback loadRes stream streamOk
      = { events := [Event.emit (Message.new gen 0 (times 0)
            MessageType.update_in_progress (JsonVal.obj []) none).1],
          history := history0, outcome := Outcome.failedKey } := by
  unfold send_feedback
  rw [h]

theorem send_feedback_loadFail (gen : Nat → String) (times : Nat → Int)
    (init_data : List (String × String)) (history0 : List Turn) (feedback : String)
    (err : LoadError) (stream : List PartialResult) (streamOk : Bool) (sid : String)
    (hsid : lookupStr init_data "sandbox_id" = some sid) :
    send_feedback gen times init_data history0 feedback (Except.error err)
        stream streamOk
      = { events := [Event.emit (Message.new gen 0 (times 0)
            MessageType.update_in_progress (JsonVal.obj []) none).1,
          Event.loadCall sid],
          history := history0, outcome := Outcome.failedLoad } := by
  unfold send_feedback
  rw [hsid]
  rfl

theorem send_feedback_streamFail (gen : Nat → String) (times : Nat → Int)
    (init_data : List (String × String)) (history0 : List Turn) (feedback : String)
    (cm : List (String × String)) (pkg : String)
    (stream : List PartialResult) (sid : String)
    (hsid : lookupStr init_data "sandbox_id" = some sid) :
    send_feedback gen times init_data history0 feedback (Except.ok (cm, pkg))
        stream false
      = (let stF := stream.foldl (stepItem gen times feedback (gen 1) (gen 2))
             (st0Of gen times history0 feedback cm pkg sid)
         { events := stF.events, history := stF.history,
           outcome := Outcome.failedStream }) := by
  unfold send_feedback st0Of
  rw [hsid]
  rfl

theorem send_feedback_committed (gen : Nat → String) (times : Nat → Int)
    (init_data : List (String × String)) (history0 : List Turn) (feedback : String)
    (cm : List (String × String)) (pkg : String)
    (stream : List PartialResult) (sid : String)
    (hsid : lookupStr init_data "sandbox_id" = some sid) :
    send_feedback gen times init_data history0 feedback (Except.ok (cm, pkg))
        stream true
      = (let stF := stream.foldl (stepItem gen times feedback (gen 1) (gen 2))
             (st0Of gen times history0 feedback cm pkg sid)
         { events := (stF.events ++ [Event.writeCall sid stF.new_code_map]) ++
             [Event.emit (Message.new gen stF.u
               (times (stF.events ++ [Event.writeCall sid stF.new_code_map]).length)
               MessageType.update_completed (JsonVal.obj []) none).1],
           history := stF.history, outcome := Outcome.completed }) := by
  unfold send_feedback st0Of
  rw [hsid]
  rfl

theorem st0Of_countType_agentFinal (gen : Nat → String) (times : Nat → Int)
    (history0 : List Turn) (feedback : String) (cm : List (String × String))
    (pkg : String) (sid : String) :
    countType MessageType.agentFinal
      (st0Of gen times history0 feedback cm pkg sid).events = 0 := rfl

theorem st0Of_sent_plan (gen : Nat → String) (times : Nat → Int)
    (history0 : List Turn) (feedback : String) (cm : List (String × String))
    (pkg : String) (sid : String) :
    (st0Of gen times history0 feedback cm pkg sid).sent_plan = false := rfl

/-- C2: over one cycle that reaches the stream, the number of `agent_final`
envelopes is one when some consumed item has `plan.state = "Complete"` and
zero otherwise — in particular it never exceeds one. -/
theorem agent_final_iff_complete (gen : Nat → String) (times : Nat → Int)
    (init_data : List (String × String)) (history0 : List Turn)
    (feedback : String) (cm : List (String × String)) (pkg : String)
    (stream : List PartialResult) (streamOk : Bool) (sid : String)
    (hsid : lookupStr init_data "sandbox_id" = some sid) :
    countType MessageType.agentFinal
        (send_feedback gen times init_data history0 feedback
          (Except.ok (cm, pkg)) stream streamOk).events
      = if stream.any (fun p => p.plan.state = "Complete") then 1 else 0 := by
  have h := foldItems_count_final gen times feedback (gen 1) (gen 2) stream
    (st0Of gen times history0 feedback cm pkg sid)
  rw [st0Of_countType_agentFinal, Nat.zero_add, st0Of_sent_plan] at h
  simp only [eq_self_iff_true, true_and] at h
  cases streamOk with
  | true =>
      rw [send_feedback_committed gen times init_data history0 feedback cm pkg
        stream sid hsid]
      rw [countType_append, countType_append, countType_writeCall,
        countType_emit, Message_new_type, h]
      by_cases hany : stream.any (fun p => p.plan.state = "Complete") = true <;>
        simp [hany]
  | false =>
      rw [send_feedback_streamFail gen times init_data history0 feedback cm pkg
        stream sid hsid]
      exact h

/-- Witness for C2 at a concrete input: the sample stream completes, and
exactly one `agent_final` envelope is emitted. -/
theorem agent_final_iff_complete_witness :
    countType MessageType.agentFinal
        (send_feedback sampleGen sampleTimes [("sandbox_id", "sb")] [] "fb"
          (Except.ok ([], "PKG")) sampleStream true).events
      = if sampleStream.any (fun p => p.plan.state = "Complete") then 1 else 0 :=
  agent_final_iff_complete sampleGen sampleTimes [("sandbox_id", "sb")] [] "fb"
    [] "PKG" sampleStream true "sb" (by decide)

theorem writeCalls_single (sid : String) (m : List (String × String)) :
    writeCalls [Event.writeCall sid m] = [(sid, m)] := rfl

theorem writeCalls_emit (m : Message) : writeCalls [Event.emit m] = [] := rfl

theorem writeCalls_nil : writeCalls [] = [] := rfl

theorem writeCalls_cons_emit (m : Message) (es : List Event) :
    writeCalls (Event.emit m :: es) = writeCalls es := rfl

theorem writeCalls_cons_write (sid : String) (m : List (String × String))
    (es : List Event) :
    writeCalls (Event.writeCall sid m :: es) = (sid, m) :: writeCalls es := rfl

theorem st0Of_writeCalls (gen : Nat → String) (times : Nat → Int)
    (history0 : List Turn) (feedback : String) (cm : List (String × String))
    (pkg : String) (sid : String) :
    writeCalls (st0Of gen times history0 feedback cm pkg sid).events = [] := rfl

theorem st0Of_emits (gen : Nat → String) (times : Nat → Int)
    (history0 : List Turn) (feedback : String) (cm : List (String × String))
    (pkg : String) (sid : String) :
    emits (st0Of gen times history0 feedback cm pkg sid).events
      = [(Message.new gen 0 (times 0) MessageType.update_in_progress
          (JsonVal.obj []) none).1] := rfl

theorem st0Of_ncm (gen : Nat → String) (times : Nat → Int)
    (history0 : List Turn) (feedback : String) (cm : List (String × String))
    (pkg : String) (sid : String) :
    (st0Of gen times history0 feedback cm pkg sid).new_code_map = [] := rfl

theorem st0Of_history (gen : Nat → String) (times : Nat → Int)
    (history0 : List Turn) (feedback : String) (cm : List (String × String))
    (pkg : String) (sid : String) :
    (st0Of gen times history0 feedback cm pkg sid).history = history0 := rfl

/-- C3: the commit call to the remote workspace happens exactly once when the
`sandbox_id` lookup, the load, and the stream all succeed — regardless of
whether the edit set is empty or the plan ever completed — and exactly zero
times when the lookup, the load, or the stream fails. -/
theorem single_commit_on_success (gen : Nat → String) (times : Nat → Int)
    (init_data : List (String × String)) (history0 : List Turn)
    (feedback : String)
    (loadRes : Except LoadError (List (String × String) × String))
    (stream : List PartialResult) (streamOk : Bool) :
    (writeCalls (send_feedback gen times init_data history0 feedback loadRes
        stream streamOk).events).length
      = if ((lookupStr init_data "sandbox_id").isSome
            && loadSucceeded loadRes && streamOk) = true then 1 else 0 := by
  cases hl : lookupStr init_data "sandbox_id" with
  | none =>
      rw [send_feedback_keyMissing gen times init_data history0 feedback loadRes
        stream streamOk hl]
      simp [writeCalls]
  | some sid =>
      cases loadRes with
      | error err =>
          rw [send_feedback_loadFail gen times init_data history0 feedback err
            stream streamOk sid hl]
          simp [writeCalls, loadSucceeded]
      | ok cp =>
          obtain ⟨cm, pkg⟩ := cp
          cases streamOk with
          | false =>
              rw [send_feedback_streamFail gen times init_data history0 feedback
                cm pkg stream sid hl]
              simp [foldItems_writeCalls, st0Of_writeCalls, loadSucceeded]
          | true =>
              rw [send_feedback_committed gen times init_data history0 feedback
                cm pkg stream sid hl]
              simp [writeCalls_append, foldItems_writeCalls, st0Of_writeCalls,
                writeCalls_single, writeCalls_emit, writeCalls_nil,
                writeCalls_cons_emit, writeCalls_cons_write, loadSucceeded]

theorem emits_writeCall (sid : String) (m : List (String × String)) :
    emits [Event.writeCall sid m] = [] := rfl

theorem emits_single_emit (m : Message) : emits [Event.emit m] = [m] := rfl

theorem emits_nil : emits [] = [] := rfl

theorem emits_cons_write (sid : String) (m : List (String × String))
    (es : List Event) :
    emits (Event.writeCall sid m :: es) = emits es := rfl

theorem emits_cons_emit (m : Message) (es : List Event) :
    emits (Event.emit m :: es) = m :: emits es := rfl

theorem loopEmitKind_types {pid fid : String} {m : Message}
    (h : loopEmitKind pid fid m) :
    m.type ≠ MessageType.update_completed ∧ m.type ≠ MessageType.update_in_progress := by
  rcases h with ⟨ht | ht, _⟩ | ⟨ht, _⟩ <;> rw [ht] <;>
    exact ⟨by decide, by decide⟩

/-- C7: in every cycle — whatever the fate of the lookup, the load and the
stream — the first emitted envelope is `update_in_progress`, and no envelope
other than the final one is `update_completed` (so `update_completed`, when
emitted, is the last envelope). -/
theorem first_and_last_envelope (gen : Nat → String) (times : Nat → Int)
    (init_data : List (String × String)) (history0 : List Turn)
    (feedback : String)
    (loadRes : Except LoadError (List (String × String) × String))
    (stream : List PartialResult) (streamOk : Bool) (m : Message)
    (hm : m ∈ (emits (send_feedback gen times init_data history0 feedback
        loadRes stream streamOk).events).dropLast) :
    ((emits (send_feedback gen times init_data history0 feedback loadRes
          stream streamOk).events).head?.map (fun x => x.type)
        = some MessageType.update_in_progress)
      ∧ m.type ≠ MessageType.update_completed := by
  cases hl : lookupStr init_data "sandbox_id" with
  | none =>
      rw [send_feedback_keyMissing gen times init_data history0 feedback loadRes
        stream streamOk hl] at hm ⊢
      constructor
      · simp [emits, Message_new_type]
      · simp [emits] at hm
  | some sid =>
      cases loadRes with
      | error err =>
          rw [send_feedback_loadFail gen times init_data history0 feedback err
            stream streamOk sid hl] at hm ⊢
          constructor
          · simp [emits, Message_new_type]
          · simp [emits] at hm
      | ok cp =>
          obtain ⟨cm, pkg⟩ := cp
          obtain ⟨ext, hev, hp⟩ := foldItems_events gen times feedback (gen 1)
            (gen 2) stream (st0Of gen times history0 feedback cm pkg sid)
          have hext : ∀ x ∈ emits ext, x.type ≠ MessageType.update_completed := by
            intro x hx
            obtain ⟨m', heq, hk⟩ := hp (Event.emit x) (mem_emits.1 hx)
            have hx' : x = m' := by injection heq
            rw [hx']
            exact (loopEmitKind_types hk).1
          cases streamOk with
          | false =>
              rw [send_feedback_streamFail gen times init_data history0 feedback
                cm pkg stream sid hl] at hm ⊢
              simp only [hev, emits_append, st0Of_emits] at hm ⊢
              constructor
              · simp [Message_new_type]
              · have hm' := (List.dropLast_sublist _).subset hm
                rcases List.mem_cons.1 (by simpa using hm') with h | h
                · rw [h, Message_new_type]
                  decide
                · exact hext m h
          | true =>
              rw [send_feedback_committed gen times init_data history0 feedback
                cm pkg stream sid hl] at hm ⊢
              simp only [hev, emits_append, st0Of_emits, emits_writeCall,
                emits_single_emit, emits_nil, emits_cons_write, emits_cons_emit,
                List.append_assoc, List.nil_append,
                List.append_nil, List.singleton_append] at hm ⊢
              constructor
              · simp [Message_new_type]
              · have h₂ : ∀ mC : Message,
                    ((Message.new gen 0 (times 0) MessageType.update_in_progress
                        (JsonVal.obj []) none).1 :: (emits ext ++ [mC])).dropLast
                      = (Message.new gen 0 (times 0) MessageType.update_in_progress
                          (JsonVal.obj []) none).1 :: emits ext := by
                  intro mC
                  rw [show ((Message.new gen 0 (times 0)
                      MessageType.update_in_progress (JsonVal.obj []) none).1
                        :: (emits ext ++ [mC]))
                      = ((Message.new gen 0 (times 0)
                          MessageType.update_in_progress (JsonVal.obj []) none).1
                            :: emits ext) ++ [mC] from by simp,
                    List.dropLast_concat]
                rw [h₂] at hm
                rcases List.mem_cons.1 hm with h | h
                · rw [h, Message_new_type]
                  decide
                · exact hext m h

/-- Witness for C7 at a concrete completed run: the head envelope is
`update_in_progress` and the first emitted envelope (a member of the
non-final segment) is not `update_completed`. -/
theorem first_and_last_envelope_witness :
    ((emits (send_feedback sampleGen sampleTimes [("sandbox_id", "sb")] [] "fb"
          (Except.ok ([], "PKG")) sampleStream true).events).head?.map
        (fun x => x.type) = some MessageType.update_in_progress)
      ∧ ({ id := "uuid-0", timestamp := 0, type := MessageType.update_in_progress,
           data := JsonVal.obj [] } : Message).type
          ≠ MessageType.update_completed :=
  first_and_last_envelope sampleGen sampleTimes [("sandbox_id", "sb")] [] "fb"
    (Except.ok ([], "PKG")) sampleStream true
    { id := "uuid-0", timestamp := 0, type := MessageType.update_in_progress,
      data := JsonVal.obj [] } (by decide)

theorem loopEmitKind_ids {pid fid : String} {m : Message}
    (h : loopEmitKind pid fid m) (hpid : pid ≠ "") (hfid : fid ≠ "") :
    ((m.type = MessageType.agentPartial ∨ m.type = MessageType.agentFinal)
        → m.id = pid)
      ∧ (m.type = MessageType.update_file → m.id = fid) := by
  rcases h with ⟨ht, hid⟩ | ⟨ht, hid⟩
  · refine ⟨fun _ => hid hpid, fun hfile => ?_⟩
    rcases ht with ht | ht <;> rw [ht] at hfile <;> cases hfile
  · refine ⟨fun hplan => ?_, fun _ => hid hfid⟩
    rcases hplan with hplan | hplan <;> rw [ht] at hplan <;> cases hplan

/-- C8: in a cycle that reaches the stream, every `agent_partial` and
`agent_final` envelope carries the one plan id drawn for the cycle (the
second uuid), and every `update_file` envelope carries the one file id drawn
for the cycle (the third uuid); uuid strings are never empty, which the
abstract supply records as a hypothesis. -/
theorem stable_plan_and_file_ids (gen : Nat → String) (times : Nat → Int)
    (init_data : List (String × String)) (history0 : List Turn)
    (feedback : String) (cm : List (String × String)) (pkg : String)
    (stream : List PartialResult) (streamOk : Bool) (sid : String)
    (hsid : lookupStr init_data "sandbox_id" = some sid)
    (hgen : ∀ n, gen n ≠ "") (m : Message)
    (hm : m ∈ emits (send_feedback gen times init_data history0 feedback
        (Except.ok (cm, pkg)) stream streamOk).events) :
    ((m.type = MessageType.agentPartial ∨ m.type = MessageType.agentFinal)
        → m.id = gen 1)
      ∧ (m.type = MessageType.update_file → m.id = gen 2) := by
  obtain ⟨ext, hev, hp⟩ := foldItems_events gen times feedback (gen 1)
    (gen 2) stream (st0Of gen times history0 feedback cm pkg sid)
  have hext : ∀ x ∈ emits ext,
      ((x.type = MessageType.agentPartial ∨ x.type = MessageType.agentFinal)
          → x.id = gen 1)
        ∧ (x.type = MessageType.update_file → x.id = gen 2) := by
    intro x hx
    obtain ⟨m', heq, hk⟩ := hp (Event.emit x) (mem_emits.1 hx)
    have hx' : x = m' := by injection heq
    rw [hx']
    exact loopEmitKind_ids hk (hgen 1) (hgen 2)
  have hm0 : ∀ x : Message, x = (Message.new gen 0 (times 0)
      MessageType.update_in_progress (JsonVal.obj []) none).1 →
      ((x.type = MessageType.agentPartial ∨ x.type = MessageType.agentFinal)
          → x.id = gen 1)
        ∧ (x.type = MessageType.update_file → x.id = gen 2) := by
    intro x hx
    rw [hx, Message_new_type]
    constructor
    · intro h
      rcases h with h | h <;> cases h
    · intro h
      cases h
  cases streamOk with
  | false =>
      rw [send_feedback_streamFail gen times init_data history0 feedback cm pkg
        stream sid hsid] at hm
      simp only [hev, emits_append, st0Of_emits, List.singleton_append] at hm
      rcases List.mem_cons.1 hm with h | h
      · exact hm0 m h
      · exact hext m h
  | true =>
      rw [send_feedback_committed gen times init_data history0 feedback cm pkg
        stream sid hsid] at hm
      simp only [hev, emits_append, st0Of_emits, emits_writeCall,
        emits_single_emit, emits_nil, emits_cons_write, emits_cons_emit,
        List.append_assoc, List.nil_append, List.append_nil,
        List.singleton_append] at hm
      rcases List.mem_cons.1 hm with h | h
      · exact hm0 m h
      · rcases List.mem_append.1 h with h' | h'
        · exact hext m h'
        · rw [List.mem_singleton.1 h']
          constructor
          · intro hcase
            rw [Message_new_type] at hcase
            rcases hcase with hcase | hcase <;> cases hcase
          · intro hcase
            rw [Message_new_type] at hcase
            cases hcase

theorem sampleGen_ne : ∀ n, sampleGen n ≠ "" := by
  intro n h
  have hlen := congrArg String.length h
  rw [show sampleGen n = "uuid-" ++ toString n from rfl,
    String.length_append] at hlen
  simp at hlen
  exact absurd hlen.1 (by decide)

/-- Witness for C8 at a concrete completed run, applied to the second emitted
envelope (the `agent_partial` for the sample stream): its id is the plan id
`"uuid-1"`. -/
theorem stable_plan_and_file_ids_witness :
    ((({ id := "uuid-1", timestamp := 3, type := MessageType.agentPartial,
         data := JsonVal.obj [("text", JsonVal.str "p")] } : Message).type
          = MessageType.agentPartial
        ∨ ({ id := "uuid-1", timestamp := 3, type := MessageType.agentPartial,
             data := JsonVal.obj [("text", JsonVal.str "p")] } : Message).type
          = MessageType.agentFinal)
      → ({ id := "uuid-1", timestamp := 3, type := MessageType.agentPartial,
           data := JsonVal.obj [("text", JsonVal.str "p")] } : Message).id
          = sampleGen 1)
    ∧ (({ id := "uuid-1", timestamp := 3, type := MessageType.agentPartial,
          data := JsonVal.obj [("text", JsonVal.str "p")] } : Message).type
          = MessageType.update_file
      → ({ id := "uuid-1", timestamp := 3, type := MessageType.agentPartial,
           data := JsonVal.obj [("text", JsonVal.str "p")] } : Message).id
          = sampleGen 2) :=
  stable_plan_and_file_ids sampleGen sampleTimes [("sandbox_id", "sb")] [] "fb"
    [] "PKG" sampleStream true "sb" (by decide) sampleGen_ne
    { id := "uuid-1", timestamp := 3, type := MessageType.agentPartial,
      data := JsonVal.obj [("text", JsonVal.str "p")] } (by decide)

/-- C9: in a cycle that reaches the stream, the final conversation history is
the starting history plus exactly one user/assistant pair taken from the
first item whose `plan.state` is `"Complete"` — and the starting history
unchanged when no item completes; moreover after consuming any prefix of the
stream the history is unchanged until that first completing item has been
processed; a cycle whose load fails leaves the history unchanged. -/
theorem history_single_mutation (gen : Nat → String) (times : Nat → Int)
    (init_data : List (String × String)) (history0 : List Turn)
    (feedback : String) (cm : List (String × String)) (pkg : String)
    (stream : List PartialResult) (streamOk : Bool) (sid : String)
    (hsid : lookupStr init_data "sandbox_id" = some sid) :
    ((send_feedback gen times init_data history0 feedback (Except.ok (cm, pkg))
          stream streamOk).history
        = history0 ++
            (match stream.find? (fun p => p.plan.state = "Complete") with
             | some p => [{ role := "user", content := feedback },
                          { role := "assistant", content := p.plan.value }]
             | none => []))
      ∧ (∀ k, ((stream.take k).foldl
            (stepItem gen times feedback (gen 1) (gen 2))
            (st0Of gen times history0 feedback cm pkg sid)).history
          = history0 ++
              (match (stream.take k).find? (fun p => p.plan.state = "Complete") with
               | some p => [{ role := "user", content := feedback },
                            { role := "assistant", content := p.plan.value }]
               | none => []))
      ∧ (∀ err : LoadError,
          (send_feedback gen times init_data history0 feedback (Except.error err)
            stream streamOk).history = history0) := by
  refine ⟨?_, ?_, ?_⟩
  · cases streamOk with
    | true =>
        rw [send_feedback_committed gen times init_data history0 feedback cm pkg
          stream sid hsid]
        exact foldItems_history gen times feedback (gen 1) (gen 2) stream
          (st0Of gen times history0 feedback cm pkg sid)
    | false =>
        rw [send_feedback_streamFail gen times init_data history0 feedback cm pkg
          stream sid hsid]
        exact foldItems_history gen times feedback (gen 1) (gen 2) stream
          (st0Of gen times history0 feedback cm pkg sid)
  · intro k
    exact foldItems_history gen times feedback (gen 1) (gen 2) (stream.take k)
      (st0Of gen times history0 feedback cm pkg sid)
  · intro err
    rw [send_feedback_loadFail gen times init_data history0 feedback err
      stream streamOk sid hsid]

/-- Witness for C9 at a concrete completed run: the sample stream's first
completing item has plan text `"plan done"`, and exactly that pair is
appended to the empty starting history. -/
theorem history_single_mutation_witness :
    (send_feedback sampleGen sampleTimes [("sandbox_id", "sb")] [] "fb"
        (Except.ok ([], "PKG")) sampleStream true).history
      = [{ role := "user", content := "fb" },
         { role := "assistant", content := "plan done" }] :=
  ((history_single_mutation sampleGen sampleTimes [("sandbox_id", "sb")] [] "fb"
      [] "PKG" sampleStream true "sb" (by decide)).1).trans (by decide)

/-- C10: when `init_data` has no `"sandbox_id"` key, consuming the cycle
yields the `update_in_progress` envelope and then aborts with the key-lookup
failure before any further event; when the key is present, the key lookup
never aborts the cycle. -/
theorem missing_sandbox_id_aborts (gen : Nat → String) (times : Nat → Int)
    (init_data : List (String × String)) (history0 : List Turn)
    (feedback : String)
    (loadRes : Except LoadError (List (String × String) × String))
    (stream : List PartialResult) (streamOk : Bool) :
    (lookupStr init_data "sandbox_id" = none →
      (send_feedback gen times init_data history0 feedback loadRes stream
          streamOk).events
          = [Event.emit (Message.new gen 0 (times 0)
              MessageType.update_in_progress (JsonVal.obj []) none).1]
        ∧ (send_feedback gen times init_data history0 feedback loadRes stream
            streamOk).outcome = Outcome.failedKey)
    ∧ (∀ sid, lookupStr init_data "sandbox_id" = some sid →
        (send_feedback gen times init_data history0 feedback loadRes stream
          streamOk).outcome ≠ Outcome.failedKey) := by
  constructor
  · intro h
    rw [send_feedback_keyMissing gen times init_data history0 feedback loadRes
      stream streamOk h]
    exact ⟨rfl, rfl⟩
  · intro sid h
    cases loadRes with
    | error err =>
        rw [send_feedback_loadFail gen times init_data history0 feedback err
          stream streamOk sid h]
        simp
    | ok cp =>
        obtain ⟨cm, pkg⟩ := cp
        cases streamOk with
        | false =>
            rw [send_feedback_streamFail gen times init_data history0 feedback
              cm pkg stream sid h]
            simp
        | true =>
            rw [send_feedback_committed gen times init_data history0 feedback
              cm pkg stream sid h]
            simp

/-- Witness for C10: with an empty `init_data` the cycle stops at the key
failure right after `update_in_progress`; with the key present the outcome is
not the key failure. -/
theorem missing_sandbox_id_aborts_witness :
    ((send_feedback sampleGen sampleTimes [] [] "fb" (Except.ok ([], "PKG"))
          sampleStream true).events
        = [Event.emit (Message.new sampleGen 0 (sampleTimes 0)
            MessageType.update_in_progress (JsonVal.obj []) none).1]
      ∧ (send_feedback sampleGen sampleTimes [] [] "fb" (Except.ok ([], "PKG"))
          sampleStream true).outcome = Outcome.failedKey)
    ∧ (send_feedback sampleGen sampleTimes [("sandbox_id", "sb")] [] "fb"
        (Except.ok ([], "PKG")) sampleStream true).outcome ≠ Outcome.failedKey :=
  ⟨(missing_sandbox_id_aborts sampleGen sampleTimes [] [] "fb"
      (Except.ok ([], "PKG")) sampleStream true).1 (by decide),
   (missing_sandbox_id_aborts sampleGen sampleTimes [("sandbox_id", "sb")] []
      "fb" (Except.ok ([], "PKG")) sampleStream true).2 "sb" (by decide)⟩

theorem st0Of_countType_update_file (gen : Nat → String) (times : Nat → Int)
    (history0 : List Turn) (feedback : String) (cm : List (String × String))
    (pkg : String) (sid : String) :
    countType MessageType.update_file
      (st0Of gen times history0 feedback cm pkg sid).events = 0 := rfl

/-- C4: in a cycle that reaches the stream, the number of `update_file`
envelopes equals the number of distinct file paths occurring in the `files`
lists across all consumed items — duplicated paths notify exactly once. -/
theorem update_file_count_distinct (gen : Nat → String) (times : Nat → Int)
    (init_data : List (String × String)) (history0 : List Turn)
    (feedback : String) (cm : List (String × String)) (pkg : String)
    (stream : List PartialResult) (streamOk : Bool) (sid : String)
    (hsid : lookupStr init_data "sandbox_id" = some sid) :
    countType MessageType.update_file
        (send_feedback gen times init_data history0 feedback
          (Except.ok (cm, pkg)) stream streamOk).events
      = (allPaths stream).toFinset.card := by
  have hcnt := foldItems_count_ncm gen times feedback (gen 1) (gen 2) stream
    (st0Of gen times history0 feedback cm pkg sid)
  rw [st0Of_countType_update_file, st0Of_ncm] at hcnt
  simp only [List.length_nil, Nat.add_zero, Nat.zero_add] at hcnt
  have hnodup := foldItems_keys_nodup gen times feedback (gen 1) (gen 2) stream
    (st0Of gen times history0 feedback cm pkg sid)
    (by rw [st0Of_ncm]; simp)
  have hkeys : ((stream.foldl (stepItem gen times feedback (gen 1) (gen 2))
      (st0Of gen times history0 feedback cm pkg sid)).new_code_map.map
        (fun kv => kv.1)).toFinset = (allPaths stream).toFinset := by
    apply Finset.ext
    intro x
    rw [List.mem_toFinset, List.mem_toFinset,
      foldItems_mem_keys gen times feedback (gen 1) (gen 2) stream
        (st0Of gen times history0 feedback cm pkg sid) x]
    simp [st0Of_ncm]
  have hlen : (stream.foldl (stepItem gen times feedback (gen 1) (gen 2))
      (st0Of gen times history0 feedback cm pkg sid)).new_code_map.length
      = (allPaths stream).toFinset.card := by
    calc (stream.foldl (stepItem gen times feedback (gen 1) (gen 2))
          (st0Of gen times history0 feedback cm pkg sid)).new_code_map.length
        = ((stream.foldl (stepItem gen times feedback (gen 1) (gen 2))
            (st0Of gen times history0 feedback cm pkg sid)).new_code_map.map
              (fun kv => kv.1)).length := (List.length_map _ _).symm
      _ = ((stream.foldl (stepItem gen times feedback (gen 1) (gen 2))
            (st0Of gen times history0 feedback cm pkg sid)).new_code_map.map
              (fun kv => kv.1)).toFinset.card :=
          (List.toFinset_card_of_nodup hnodup).symm
      _ = (allPaths stream).toFinset.card := by rw [hkeys]
  cases streamOk with
  | false =>
      rw [send_feedback_streamFail gen times init_data history0 feedback cm pkg
        stream sid hsid]
      exact hcnt.trans hlen
  | true =>
      rw [send_feedback_committed gen times init_data history0 feedback cm pkg
        stream sid hsid]
      rw [countType_append, countType_append, countType_writeCall,
        countType_emit, Message_new_type]
      rw [hcnt, hlen]
      simp

/-- Witness for C4 at a concrete input: the sample stream mentions the single
path `"src/App.tsx"` three times, and exactly one `update_file` envelope is
emitted. -/
theorem update_file_count_distinct_witness :
    countType MessageType.update_file
        (send_feedback sampleGen sampleTimes [("sandbox_id", "sb")] [] "fb"
          (Except.ok ([], "PKG")) sampleStream true).events
      = (allPaths sampleStream).toFinset.card :=
  update_file_count_distinct sampleGen sampleTimes [("sandbox_id", "sb")] []
    "fb" [] "PKG" sampleStream true "sb" (by decide)

/-- C1 (amended): in a cycle that exhausts its stream without error, the
single write call carries, for each path, the content attached to the *first*
occurrence of that path in the stream — `new_code_map[file.path] =
file.content` sits inside the `not in` guard, so later occurrences of a path
change neither the notification nor the recorded content. -/
theorem commit_first_seen_content (gen : Nat → String) (times : Nat → Int)
    (init_data : List (String × String)) (history0 : List Turn)
    (feedback : String) (cm : List (String × String)) (pkg : String)
    (stream : List PartialResult) (sid : String)
    (hsid : lookupStr init_data "sandbox_id" = some sid) :
    ∃ m, writeCalls (send_feedback gen times init_data history0 feedback
          (Except.ok (cm, pkg)) stream true).events = [(sid, m)]
      ∧ ∀ q, lookupStr m q = firstContent stream q := by
  rw [send_feedback_committed gen times init_data history0 feedback cm pkg
    stream sid hsid]
  refine ⟨(stream.foldl (stepItem gen times feedback (gen 1) (gen 2))
      (st0Of gen times history0 feedback cm pkg sid)).new_code_map, ?_, ?_⟩
  · simp [writeCalls_append, foldItems_writeCalls, st0Of_writeCalls,
      writeCalls_single, writeCalls_emit, writeCalls_nil,
      writeCalls_cons_emit, writeCalls_cons_write]
  · intro q
    rw [foldItems_lookup, st0Of_ncm]
    simp [lookupStr, Option.none_or]

/-- Witness for C1 (amended) at the sample stream: the committed content for
`"src/App.tsx"` is `"A"`, the content of its first occurrence. -/
theorem commit_first_seen_content_witness :
    (writeCalls (send_feedback sampleGen sampleTimes [("sandbox_id", "sb")] []
        "fb" (Except.ok ([], "PKG")) sampleStream true).events).map
      (fun w => lookupStr w.2 "src/App.tsx") = [some "A"] := by
  obtain ⟨m, hw, hl⟩ := commit_first_seen_content sampleGen sampleTimes
    [("sandbox_id", "sb")] [] "fb" [] "PKG" sampleStream "sb" (by decide)
  rw [hw, List.map_singleton, hl "src/App.tsx"]
  decide

/-- Counterexample to C1 as stated: on the sample stream — where
`"src/App.tsx"` is first seen with content `"A"` and later updated to
`"B"` — the committed content is not the later item's content `"B"`. -/
theorem commit_latest_content_refuted :
    (writeCalls (send_feedback sampleGen sampleTimes [("sandbox_id", "sb")] []
        "fb" (Except.ok ([], "PKG")) sampleStream true).events).map
      (fun w => lookupStr w.2 "src/App.tsx") ≠ [some "B"] := by decide

mutual

theorem processEntry_key_shape : ∀ (d : String) (e : FsEntry),
    ∀ kv ∈ processEntry d e, ∃ rest, kv.1 = d ++ "/" ++ rest
  | d, FsEntry.file name content => by
      intro kv hkv
      simp only [processEntry, List.mem_singleton] at hkv
      exact ⟨name, by rw [hkv]⟩
  | d, FsEntry.dir name sub => by
      intro kv hkv
      obtain ⟨rest, hr⟩ := processEntries_key_shape (d ++ "/" ++ name) sub kv
        (by simpa [processEntry] using hkv)
      refine ⟨name ++ "/" ++ rest, ?_⟩
      rw [hr]
      simp [String.append_assoc]

theorem processEntries_key_shape : ∀ (d : String) (es : List FsEntry),
    ∀ kv ∈ processEntries d es, ∃ rest, kv.1 = d ++ "/" ++ rest
  | d, [] => by
      intro kv hkv
      simp [processEntries] at hkv
  | d, e :: rest => by
      intro kv hkv
      simp only [processEntries, List.mem_append] at hkv
      rcases hkv with h | h
      · exact processEntry_key_shape d e kv h
      · exact processEntries_key_shape d rest kv h

end

/-- C5 (amended): dispatching an inbound `load_code` envelope returns exactly
one `load_code` envelope, but its `data` is the decoded *pair*
`[file_map, package_json]` rather than a bare mapping, and the file map is
keyed by the full sandbox path below `/app/src`, not by a relative path. -/
theorem handler_load_code_envelope (gen : Nat → String) (times : Nat → Int)
    (fs : List FsEntry) (pkg : String) (kv : String × String)
    (hkv : kv ∈ processEntries DEFAULT_CODE_PATH fs) :
    (handler_load_code gen times fs pkg).type = MessageType.load_code
      ∧ (handler_load_code gen times fs pkg).data
          = JsonVal.arr [jsonOfMap (processEntries DEFAULT_CODE_PATH fs),
              JsonVal.str pkg]
      ∧ ∃ rest, kv.1 = "/app/src/" ++ rest := by
  refine ⟨Message_new_type _ _ _ _ _ _, rfl, ?_⟩
  obtain ⟨rest, hr⟩ := processEntries_key_shape DEFAULT_CODE_PATH fs kv hkv
  exact ⟨rest, by rw [hr]; rfl⟩

/-- Witness for C5 (amended) on a one-file workspace: the envelope has type
`load_code`, its data is the pair, and the single key is the absolute path
`"/app/src/cmp/B.tsx"`. -/
theorem handler_load_code_envelope_witness :
    (handler_load_code sampleGen sampleTimes
        [FsEntry.dir "cmp" [FsEntry.file "B.tsx" "y"]] "PKG").type
        = MessageType.load_code
      ∧ (handler_load_code sampleGen sampleTimes
          [FsEntry.dir "cmp" [FsEntry.file "B.tsx" "y"]] "PKG").data
          = JsonVal.arr [jsonOfMap (processEntries DEFAULT_CODE_PATH
              [FsEntry.dir "cmp" [FsEntry.file "B.tsx" "y"]]),
            JsonVal.str "PKG"]
      ∧ ∃ rest, (("/app/src/cmp/B.tsx", "y") : String × String).1
          = "/app/src/" ++ rest :=
  handler_load_code_envelope sampleGen sampleTimes
    [FsEntry.dir "cmp" [FsEntry.file "B.tsx" "y"]] "PKG"
    ("/app/src/cmp/B.tsx", "y") (by decide)

/-- Counterexample to C5 as stated: for a workspace holding one file
`App.tsx` with content `"x"`, the returned envelope's data is not the
relative-path-keyed mapping the claim describes (it is the two-element
array pairing the absolute-path-keyed map with the manifest text). -/
theorem handler_load_code_relative_mapping_refuted :
    (handler_load_code sampleGen sampleTimes [FsEntry.file "App.tsx" "x"]
        "PKG").data
      ≠ jsonOfMap [("App.tsx", "x")] := by decide

/-- C6 (amended): `Message.new` never fails; with no id it uses the next
freshly drawn identifier and advances the supply; with a *non-empty*
supplied id it keeps that id and draws nothing.  (A supplied empty string is
falsy in the source's `id or str(uuid.uuid4())` and is replaced by a fresh
id, which is what forces the non-emptiness qualification.) -/
theorem envelope_create_id (gen : Nat → String) (u : Nat) (now : Int)
    (t : MessageType) (d : JsonVal) (s : String) (hs : s ≠ "") :
    ((Message.new gen u now t d none).1.id = gen u
        ∧ (Message.new gen u now t d none).2 = u + 1)
      ∧ ((Message.new gen u now t d (some s)).1.id = s
        ∧ (Message.new gen u now t d (some s)).2 = u) := by
  refine ⟨⟨rfl, rfl⟩, Message_new_id_of_ne gen u now t d s hs, ?_⟩
  unfold Message.new
  simp [hs]

/-- Witness for C6 (amended) at concrete arguments: a supplied non-empty id
`"req-7"` is kept, and the no-id envelope uses the drawn `sampleGen 0`. -/
theorem envelope_create_id_witness :
    ((Message.new sampleGen 0 0 MessageType.user (JsonVal.obj []) none).1.id
        = sampleGen 0
      ∧ (Message.new sampleGen 0 0 MessageType.user (JsonVal.obj []) none).2
        = 0 + 1)
    ∧ ((Message.new sampleGen 0 0 MessageType.user (JsonVal.obj [])
          (some "req-7")).1.id = "req-7"
      ∧ (Message.new sampleGen 0 0 MessageType.user (JsonVal.obj [])
          (some "req-7")).2 = 0) :=
  envelope_create_id sampleGen 0 0 MessageType.user (JsonVal.obj []) "req-7"
    (by decide)

/-- Counterexample to C6 as stated: the empty string is a supplied id, yet
the constructed envelope's id is a fresh uuid, not the supplied `""`. -/
theorem envelope_create_empty_id_refuted :
    (Message.new sampleGen 0 0 MessageType.user (JsonVal.obj [])
        (some "")).1.id ≠ "" := by decide

end AuraCode
